import Mathlib

/-!
Verification development for the `osmpp` OSM pre-processing program
(`main.go`).  The program scans a stream of OSM entities (nodes, ways,
relations); for nodes tagged `network:type = node_network` it synthesizes
derived point-network nodes with fresh identifiers, and nodes tagged
`highway = turning_circle` or `highway = turning_loop` are collected in a
correlation table that qualifying ways later annotate with an
`fzk_turning` tag; at end of stream the table is drained to the output.

The embedding below is a direct translation of the Go source:
  - `Tag` / `Node` mirror `osm.Tag` / `osm.Node`; latitude, longitude and
    the timestamp are only ever copied by the program (never computed
    with), so they are embedded as opaque integer values.
  - Go's `TagMap()` builds a `map[string]string` by inserting the tag
    list in order, so a later duplicate key overwrites an earlier one;
    `tagMapGet` returns the value of the last occurrence accordingly.
  - The correlation table `map[osm.NodeID]*osm.Node` is embedded as an
    association list with Go-map assignment semantics (`insertTable`
    overwrites the entry for an existing key, otherwise adds one); the
    in-place mutation of the pointed-to node by the annotation pass
    becomes an explicit table update.
  - `osm.NodeID` is `int64`; the post-increment of the global `newNodeID`
    counter therefore wraps at the signed 64-bit boundary (`wrap64`).
-/

structure Tag where
  key : String
  value : String
  deriving DecidableEq, Repr

structure Node where
  id : Int
  lat : Int
  lon : Int
  user : String
  uid : Int
  visible : Bool
  version : Int
  changeset : Int
  timestamp : Int
  tags : List Tag
  deriving DecidableEq, Repr

/-- Lookup in the tag map built by `TagMap()`: the last occurrence of a
key in the tag list wins, matching Go map insertion order. -/
def tagMapGet : List Tag → String → Option String
  | [], _ => none
  | t :: rest, k =>
    match tagMapGet rest k with
    | some v => some v
    | none => if t.key = k then some t.value else none

/-- Signed 64-bit wrap-around, the behaviour of Go `int64` arithmetic. -/
def wrap64 (x : Int) : Int := (x + 2 ^ 63) % 2 ^ 64 - 2 ^ 63

/-- A derived point-network node (`createNewNodeNetworkObject` body):
copy of the source node, identifier cleared, source tags discarded and
replaced by exactly `node_network = label` and `name = refValue`. -/
def mkNetworkNode (src : Node) (label refValue : String) : Node :=
  { src with id := 0, tags := [⟨"node_network", label⟩, ⟨"name", refValue⟩] }

/-- The nested `if`/`else` priority chain of `createNewNodeNetworkObject`:
the first key of `keys` present in the tag map wins. -/
def chainRef (tags : List Tag) : List String → Option String
  | [] => none
  | k :: rest =>
    match tagMapGet tags k with
    | some v => some v
    | none => chainRef tags rest

/-- One family block of `createNewNodeNetworkObject`: at most one derived
node, from the first reference key present in the chain. -/
def familyNodes (src : Node) (keys : List String) (label : String) : List Node :=
  match chainRef src.tags keys with
  | some v => [mkNetworkNode src label v]
  | none => []

def bicycleRefKeys : List String := ["icn_ref", "ncn_ref", "rcn_ref", "lcn_ref"]

def hikingRefKeys : List String := ["iwn_ref", "nwn_ref", "rwn_ref", "lwn_ref"]

/-- `createNewNodeNetworkObject`: the six sequential family blocks
(bicycle, hiking, inline skating, horse, canoe, motorboat), each emitting
at most one derived node, in source order. -/
def createNewNodeNetworkObject (src : Node) : List Node :=
  familyNodes src bicycleRefKeys "node_bicycle"
    ++ familyNodes src hikingRefKeys "node_hiking"
    ++ familyNodes src ["rin_ref"] "node_inline_skates"
    ++ familyNodes src ["rhn_ref"] "node_horse"
    ++ familyNodes src ["rpn_ref"] "node_canoe"
    ++ familyNodes src ["rmn_ref"] "node_motorboat"

/-- State of the node output sink: the global `newNodeID` counter and the
sequence of node records written so far. -/
structure SinkState where
  newNodeID : Int
  written : List Node
  deriving DecidableEq, Repr

/-- `writeNewNodeObject`: assign the current counter value as the node's
identifier, emit the record, post-increment the counter (`int64`). -/
def writeNewNodeObject (st : SinkState) (n : Node) : SinkState :=
  { newNodeID := wrap64 (st.newNodeID + 1),
    written := st.written ++ [{ n with id := st.newNodeID }] }

/-- The correlation table `map[osm.NodeID]*osm.Node`. -/
abbrev Table := List (Int × Node)

def lookupTable : Table → Int → Option Node
  | [], _ => none
  | (k, n) :: rest, id => if k = id then some n else lookupTable rest id

/-- Go map assignment `m[id] = n`: overwrite the entry for `id` if
present, otherwise add one. -/
def insertTable : Table → Int → Node → Table
  | [], id, n => [(id, n)]
  | (k, m) :: rest, id, n =>
    if k = id then (id, n) :: rest else (k, m) :: insertTable rest id n

def fzkTag (highwayType : String) : Tag := ⟨"fzk_turning", highwayType⟩

/-- The scan `for _, tag := range value.Tags` with `break`: does a tag
with key `fzk_turning` already exist? -/
def hasFzkTurning : List Tag → Bool
  | [] => false
  | t :: rest => if t.key = "fzk_turning" then true else hasFzkTurning rest

/-- One iteration of the node-reference loop in
`addHighwayTypeToTurningCircleLoop`: if the referenced node is in the
table and carries no `fzk_turning` tag yet, append
`fzk_turning = highwayType` and count it. -/
def annotateStep (st : Table × Nat) (nid : Int) (highwayType : String) : Table × Nat :=
  match lookupTable st.1 nid with
  | none => st
  | some node =>
    if hasFzkTurning node.tags then st
    else (insertTable st.1 nid { node with tags := node.tags ++ [fzkTag highwayType] }, st.2 + 1)

/-- `addHighwayTypeToTurningCircleLoop`: walk the way's node references,
annotating table entries; returns the updated table together with the
number of newly annotated points (the Go function mutates the table in
place and returns the count). -/
def addHighwayTypeToTurningCircleLoop (wayNodes : List Int) (turningCircleLoop : Table)
    (highwayType : String) : Table × Nat :=
  wayNodes.foldl (fun st nid => annotateStep st nid highwayType) (turningCircleLoop, 0)

/-- The final loop of `main` over the correlation table: entries without
an `fzk_turning` tag get `fzk_turning = not_set` appended, then every
entry is emitted once. -/
def drainFinalize (turningCircleLoop : Table) : List Node :=
  turningCircleLoop.map (fun p =>
    if hasFzkTurning p.2.tags then p.2
    else { p.2 with tags := p.2.tags ++ [fzkTag "not_set"] })

/-- The way-level highway filter in `main`'s way branch. -/
def qualifyingHighway (v : String) : Bool :=
  if v = "residential" then true
  else if v = "living_street" then true
  else if v = "unclassified" then true
  else if v = "service" then true
  else if v = "track" then true
  else false

/-- An entity delivered by the PBF scanner (fields the program uses). -/
inductive Entity where
  | node (n : Node)
  | way (id : Int) (tags : List Tag) (nodeRefs : List Int)
  | relation (id : Int)
  deriving DecidableEq, Repr

/-- Mutable program state threaded through the scan loop (statistics
counters that never feed back into processing are omitted). -/
structure RunState where
  sink : SinkState
  turningCircleLoop : Table
  turningCircleLoopModified : Nat
  deriving DecidableEq, Repr

/-- Node branch, network part: if `network:type = node_network`, create
and write the derived network nodes. -/
def processNodeNetwork (st : RunState) (n : Node) : RunState :=
  match tagMapGet n.tags "network:type" with
  | some v =>
    if v = "node_network" then
      { st with sink := (createNewNodeNetworkObject n).foldl writeNewNodeObject st.sink }
    else st
  | none => st

/-- Node branch, turning part: if `highway` is `turning_circle` or
`turning_loop`, register the node in the correlation table. -/
def processNodeTurning (st : RunState) (n : Node) : RunState :=
  match tagMapGet n.tags "highway" with
  | some v =>
    if v = "turning_circle" ∨ v = "turning_loop" then
      { st with turningCircleLoop := insertTable st.turningCircleLoop n.id n }
    else st
  | none => st

/-- The scan-loop body of `main`, dispatching on entity kind. -/
def processEntity (st : RunState) (e : Entity) : RunState :=
  match e with
  | .node n =>
    if n.tags = [] then st
    else processNodeTurning (processNodeNetwork st n) n
  | .way _ tags nodeRefs =>
    if tags = [] then st
    else
      match tagMapGet tags "highway" with
      | some v =>
        if qualifyingHighway v then
          let r := addHighwayTypeToTurningCircleLoop nodeRefs st.turningCircleLoop v
          { st with turningCircleLoop := r.1,
                    turningCircleLoopModified := st.turningCircleLoopModified + r.2 }
        else st
      | none => st
  | .relation _ => st

def processEntities (st : RunState) (es : List Entity) : RunState :=
  es.foldl processEntity st

def initialState (startNode : Int) : RunState :=
  { sink := { newNodeID := startNode, written := [] }, turningCircleLoop := [], turningCircleLoopModified := 0 }

/-- A whole run of the scan loop from the configured starting identifier. -/
def runProgram (startNode : Int) (es : List Entity) : RunState :=
  processEntities (initialState startNode) es

/-- The argument validation in `main`:
`if *inputOSM == "" || *outputNodes == "" || *startNode == 0 { printProgUsage() }`. -/
def argCheckTriggersUsage (inputOSM outputNodes : String) (startNode : Int) : Bool :=
  if inputOSM = "" then true
  else if outputNodes = "" then true
  else if startNode = 0 then true
  else false

/-- `printProgUsage` ends in `os.Exit(1)`. -/
def usageExitCode : Nat := 1

/-- The success path of `main` ends in `os.Exit(0)`. -/
def successExitCode : Nat := 0

/-- The twelve category reference keys checked by
`createNewNodeNetworkObject`, each with the category label of the derived
node it yields. -/
def categoryRefKeys : List (String × String) :=
  [("icn_ref", "node_bicycle"), ("ncn_ref", "node_bicycle"),
   ("rcn_ref", "node_bicycle"), ("lcn_ref", "node_bicycle"),
   ("iwn_ref", "node_hiking"), ("nwn_ref", "node_hiking"),
   ("rwn_ref", "node_hiking"), ("lwn_ref", "node_hiking"),
   ("rin_ref", "node_inline_skates"), ("rhn_ref", "node_horse"),
   ("rpn_ref", "node_canoe"), ("rmn_ref", "node_motorboat")]

/-- Does the tag list contain a tag with exactly this key and value? -/
def hasTagPair : List Tag → String → String → Bool
  | [], _, _ => false
  | t :: rest, k, v => if t.key = k ∧ t.value = v then true else hasTagPair rest k v

/-- The consecutive identifiers `s, s+1, ..., s+n-1`. -/
def idsFrom (s : Int) : Nat → List Int
  | 0 => []
  | n + 1 => idsFrom s n ++ [s + n]

/-- Number of tags with key `fzk_turning` in a tag list. -/
def fzkCount : List Tag → Nat
  | [] => 0
  | t :: rest => (if t.key = "fzk_turning" then 1 else 0) + fzkCount rest

/-- Number of table entries whose node already carries an `fzk_turning`
tag. -/
def countFzk : Table → Nat
  | [] => 0
  | p :: rest => (if hasFzkTurning p.2.tags then 1 else 0) + countFzk rest

/- Concrete sample inputs used by the witness theorems. -/

def sampleNodeRcn : Node :=
  { id := 355939532, lat := 52, lon := 7, user := "", uid := 0, visible := true,
    version := 8, changeset := 0, timestamp := 1568357445,
    tags := [⟨"network:type", "node_network"⟩, ⟨"rcn_ref", "53"⟩] }

def sampleNodeIcnRcn : Node :=
  { id := 10, lat := 1, lon := 2, user := "", uid := 0, visible := true,
    version := 1, changeset := 0, timestamp := 0,
    tags := [⟨"network:type", "node_network"⟩, ⟨"icn_ref", "5"⟩,
             ⟨"rcn_ref", "9"⟩, ⟨"iwn_ref", "X1"⟩] }

def sampleNodeNcnRcn : Node :=
  { id := 11, lat := 1, lon := 2, user := "", uid := 0, visible := true,
    version := 1, changeset := 0, timestamp := 0,
    tags := [⟨"network:type", "node_network"⟩, ⟨"ncn_ref", "21"⟩,
             ⟨"rcn_ref", "22"⟩, ⟨"lcn_ref", "23"⟩] }

def sampleNodeBoth : Node :=
  { id := 42, lat := 3, lon := 4, user := "", uid := 0, visible := true,
    version := 2, changeset := 0, timestamp := 0,
    tags := [⟨"network:type", "node_network"⟩, ⟨"rcn_ref", "7"⟩,
             ⟨"highway", "turning_circle"⟩] }

def sampleTurning77 : Node :=
  { id := 77, lat := 5, lon := 6, user := "", uid := 0, visible := true,
    version := 1, changeset := 0, timestamp := 0,
    tags := [⟨"highway", "turning_circle"⟩] }

def sampleTurning88 : Node :=
  { id := 88, lat := 7, lon := 8, user := "", uid := 0, visible := true,
    version := 1, changeset := 0, timestamp := 0,
    tags := [⟨"highway", "turning_loop"⟩, ⟨"fzk_turning", "residential"⟩] }

def sampleTable : Table := [(77, sampleTurning77), (88, sampleTurning88)]

/-! ### Basic lemmas about the correlation table and tag scans -/

theorem lookupTable_insertTable_self (tbl : Table) (id : Int) (n : Node) :
    lookupTable (insertTable tbl id n) id = some n := by
  induction tbl with
  | nil => simp [insertTable, lookupTable]
  | cons p rest ih =>
    obtain ⟨k, m⟩ := p
    by_cases h : k = id
    · simp [insertTable, h, lookupTable]
    · simp [insertTable, h, lookupTable, ih]

theorem lookupTable_insertTable_ne (tbl : Table) (k : Int) (n : Node) (id : Int)
    (h : k ≠ id) : lookupTable (insertTable tbl k n) id = lookupTable tbl id := by
  induction tbl with
  | nil => simp [insertTable, lookupTable, h]
  | cons p rest ih =>
    obtain ⟨k', m⟩ := p
    by_cases hk : k' = k
    · subst hk
      simp [insertTable, lookupTable, h]
    · simp [insertTable, hk, lookupTable, ih]

theorem lookupTable_mem {tbl : Table} {id : Int} {n : Node}
    (h : lookupTable tbl id = some n) : (id, n) ∈ tbl := by
  induction tbl with
  | nil => simp [lookupTable] at h
  | cons p rest ih =>
    obtain ⟨k, m⟩ := p
    by_cases hk : k = id
    · subst hk
      simp [lookupTable] at h
      simp [h]
    · simp [lookupTable, hk] at h
      exact List.mem_cons_of_mem _ (ih h)

theorem mem_insertTable {tbl : Table} {id : Int} {n : Node} {p : Int × Node}
    (h : p ∈ insertTable tbl id n) : p = (id, n) ∨ p ∈ tbl := by
  induction tbl with
  | nil => simpa [insertTable] using h
  | cons q rest ih =>
    obtain ⟨k, m⟩ := q
    by_cases hk : k = id
    · simp [insertTable, hk] at h
      rcases h with h | h
      · exact Or.inl (by simp [h])
      · exact Or.inr (List.mem_cons_of_mem _ h)
    · simp only [insertTable, hk, if_false, List.mem_cons] at h
      rcases h with h | h
      · exact Or.inr (by simp [h])
      · rcases ih h with h' | h'
        · exact Or.inl h'
        · exact Or.inr (List.mem_cons_of_mem _ h')

theorem hasFzkTurning_append_fzk (xs : List Tag) (c : String) :
    hasFzkTurning (xs ++ [fzkTag c]) = true := by
  induction xs with
  | nil => simp [hasFzkTurning, fzkTag]
  | cons t rest ih =>
    by_cases h : t.key = "fzk_turning"
    · simp [hasFzkTurning, h]
    · simp [hasFzkTurning, h, ih]

theorem hasFzkTurning_eq_false_iff (xs : List Tag) :
    hasFzkTurning xs = false ↔ fzkCount xs = 0 := by
  induction xs with
  | nil => simp [hasFzkTurning, fzkCount]
  | cons t rest ih =>
    by_cases h : t.key = "fzk_turning"
    · simp [hasFzkTurning, h, fzkCount]
    · simp [hasFzkTurning, h, fzkCount, ih]

theorem fzkCount_append (xs ys : List Tag) :
    fzkCount (xs ++ ys) = fzkCount xs + fzkCount ys := by
  induction xs with
  | nil => simp [fzkCount]
  | cons t rest ih =>
    simp [fzkCount, ih]
    omega

theorem wrap64_eq_self {x : Int} (h1 : -2 ^ 63 ≤ x) (h2 : x < 2 ^ 63) :
    wrap64 x = x := by
  unfold wrap64
  have h : (x + 2 ^ 63) % 2 ^ 64 = x + 2 ^ 63 :=
    Int.emod_eq_of_lt (by omega) (by omega)
  omega

/-! ### Lemmas about the annotation pass -/

theorem annotateStep_lookup_ne (st : Table × Nat) (nid id : Int) (cat : String)
    (h : nid ≠ id) :
    lookupTable (annotateStep st nid cat).1 id = lookupTable st.1 id := by
  unfold annotateStep
  cases hl : lookupTable st.1 nid with
  | none => rfl
  | some m =>
    by_cases hf : hasFzkTurning m.tags = true
    · simp [hf]
    · simp only [Bool.not_eq_true] at hf
      simp [hf, lookupTable_insertTable_ne _ _ _ _ h]

theorem annotateStep_done_self (st : Table × Nat) (id : Int) (cat : String) :
    ∀ m, lookupTable (annotateStep st id cat).1 id = some m →
      hasFzkTurning m.tags = true := by
  intro m hm
  unfold annotateStep at hm
  cases hl : lookupTable st.1 id with
  | none => rw [hl] at hm; rw [hl] at hm; exact absurd hm (by simp [hl])
  | some m0 =>
    rw [hl] at hm
    by_cases hf : hasFzkTurning m0.tags = true
    · simp [hf, hl] at hm
      subst hm; exact hf
    · simp only [Bool.not_eq_true] at hf
      simp only [hf, Bool.false_eq_true, if_false] at hm
      rw [lookupTable_insertTable_self] at hm
      cases hm
      exact hasFzkTurning_append_fzk _ _

theorem annotateStep_preserve_done (st : Table × Nat) (nid id : Int) (cat : String)
    (h : ∀ m, lookupTable st.1 id = some m → hasFzkTurning m.tags = true) :
    ∀ m, lookupTable (annotateStep st nid cat).1 id = some m →
      hasFzkTurning m.tags = true := by
  by_cases hne : nid = id
  · subst hne; exact annotateStep_done_self st nid cat
  · intro m hm
    rw [annotateStep_lookup_ne st nid id cat hne] at hm
    exact h m hm

theorem annotateFold_preserve_done (refs : List Int) (cat : String) :
    ∀ (st : Table × Nat) (id : Int),
    (∀ m, lookupTable st.1 id = some m → hasFzkTurning m.tags = true) →
    ∀ m, lookupTable (refs.foldl (fun s nid => annotateStep s nid cat) st).1 id = some m →
      hasFzkTurning m.tags = true := by
  induction refs with
  | nil => intro st id h; simpa using h
  | cons r rest ih =>
    intro st id h
    exact ih (annotateStep st r cat) id (annotateStep_preserve_done st r id cat h)

theorem annotateFold_done_of_mem (refs : List Int) (cat : String) :
    ∀ (st : Table × Nat) (id : Int), id ∈ refs →
    ∀ m, lookupTable (refs.foldl (fun s nid => annotateStep s nid cat) st).1 id = some m →
      hasFzkTurning m.tags = true := by
  induction refs with
  | nil => intro st id h; simp at h
  | cons r rest ih =>
    intro st id hmem
    rcases List.mem_cons.mp hmem with heq | hmem'
    · subst heq
      exact annotateFold_preserve_done rest cat (annotateStep st id cat) id
        (annotateStep_done_self st id cat)
    · exact ih (annotateStep st r cat) id hmem'

theorem annotateStep_of_done (st : Table × Nat) (nid : Int) (cat : String)
    (h : ∀ m, lookupTable st.1 nid = some m → hasFzkTurning m.tags = true) :
    annotateStep st nid cat = st := by
  unfold annotateStep
  cases hl : lookupTable st.1 nid with
  | none => rfl
  | some m => simp [h m hl]

theorem annotateFold_id_of_all_done (refs : List Int) (cat : String) :
    ∀ (st : Table × Nat),
    (∀ id ∈ refs, ∀ m, lookupTable st.1 id = some m → hasFzkTurning m.tags = true) →
    refs.foldl (fun s nid => annotateStep s nid cat) st = st := by
  induction refs with
  | nil => intro st _; rfl
  | cons r rest ih =>
    intro st h
    have hr : annotateStep st r cat = st :=
      annotateStep_of_done st r cat (h r (List.mem_cons_self _ _))
    simp only [List.foldl_cons, hr]
    exact ih st (fun id hid => h id (List.mem_cons_of_mem _ hid))

theorem annotateStep_preserve_entry (st : Table × Nat) (nid id : Int) (cat : String)
    (n : Node) (hn : lookupTable st.1 id = some n)
    (hf : hasFzkTurning n.tags = true) :
    lookupTable (annotateStep st nid cat).1 id = some n := by
  by_cases hne : nid = id
  · subst hne
    unfold annotateStep
    simp [hn, hf]
  · rw [annotateStep_lookup_ne st nid id cat hne]
    exact hn

theorem annotateFold_preserve_entry (refs : List Int) (cat : String) :
    ∀ (st : Table × Nat) (id : Int) (n : Node),
    lookupTable st.1 id = some n → hasFzkTurning n.tags = true →
    lookupTable (refs.foldl (fun s nid => annotateStep s nid cat) st).1 id = some n := by
  induction refs with
  | nil => intro st id n hn _; simpa using hn
  | cons r rest ih =>
    intro st id n hn hf
    exact ih (annotateStep st r cat) id n
      (annotateStep_preserve_entry st r id cat n hn hf) hf

theorem annotateStep_fzkCount_le_one (st : Table × Nat) (nid : Int) (cat : String)
    (h : ∀ p ∈ st.1, fzkCount p.2.tags ≤ 1) :
    ∀ p ∈ (annotateStep st nid cat).1, fzkCount p.2.tags ≤ 1 := by
  unfold annotateStep
  cases hl : lookupTable st.1 nid with
  | none => exact h
  | some m =>
    by_cases hf : hasFzkTurning m.tags = true
    · simpa [hf] using h
    · simp only [Bool.not_eq_true] at hf
      simp only [hf, if_false]
      intro p hp
      rcases mem_insertTable hp with heq | hp'
      · subst heq
        have h0 : fzkCount m.tags = 0 := (hasFzkTurning_eq_false_iff _).mp hf
        simp [fzkCount_append, h0, fzkCount, fzkTag]
      · exact h p hp'

theorem annotateFold_fzkCount_le_one (refs : List Int) (cat : String) :
    ∀ (st : Table × Nat),
    (∀ p ∈ st.1, fzkCount p.2.tags ≤ 1) →
    ∀ p ∈ (refs.foldl (fun s nid => annotateStep s nid cat) st).1, fzkCount p.2.tags ≤ 1 := by
  induction refs with
  | nil => intro st h; simpa using h
  | cons r rest ih =>
    intro st h
    exact ih (annotateStep st r cat) (annotateStep_fzkCount_le_one st r cat h)

/-- Claim C4: annotation is idempotent append-once — `annotate` appends
`fzk_turning = highwayCategory` only if no `fzk_turning` tag is present,
so every tracked point carries at most one `fzk_turning` tag ever,
re-running the annotation with the same path and category changes nothing
(and newly annotates zero points), and a point already annotated by an
earlier path keeps its entry unchanged (first annotation wins). -/
theorem claim_C4 (tbl : Table) (refs : List Int) (cat : String) (id : Int) (n : Node)
    (hn : lookupTable tbl id = some n) (hfzk : hasFzkTurning n.tags = true)
    (hone : ∀ p ∈ tbl, fzkCount p.2.tags ≤ 1) :
    addHighwayTypeToTurningCircleLoop refs (addHighwayTypeToTurningCircleLoop refs tbl cat).1 cat
      = ((addHighwayTypeToTurningCircleLoop refs tbl cat).1, 0)
    ∧ lookupTable (addHighwayTypeToTurningCircleLoop refs tbl cat).1 id = some n
    ∧ ∀ p ∈ (addHighwayTypeToTurningCircleLoop refs tbl cat).1, fzkCount p.2.tags ≤ 1 := by
  refine ⟨?_, ?_, ?_⟩
  · unfold addHighwayTypeToTurningCircleLoop
    apply annotateFold_id_of_all_done
    intro i hi m hm
    exact annotateFold_done_of_mem refs cat (tbl, 0) i hi m hm
  · exact annotateFold_preserve_entry refs cat (tbl, 0) id n hn hfzk
  · exact annotateFold_fzkCount_le_one refs cat (tbl, 0) hone

theorem claim_C4_witness :
    addHighwayTypeToTurningCircleLoop [77, 88]
        (addHighwayTypeToTurningCircleLoop [77, 88] sampleTable "service").1 "service"
      = ((addHighwayTypeToTurningCircleLoop [77, 88] sampleTable "service").1, 0)
    ∧ lookupTable (addHighwayTypeToTurningCircleLoop [77, 88] sampleTable "service").1 88
        = some sampleTurning88
    ∧ ∀ p ∈ (addHighwayTypeToTurningCircleLoop [77, 88] sampleTable "service").1,
        fzkCount p.2.tags ≤ 1 :=
  claim_C4 sampleTable [77, 88] "service" 88 sampleTurning88 (by decide) (by decide) (by decide)

theorem annotateFold_entry_evolution (refs : List Int) (cat : String) (id : Int) (n : Node) :
    ∀ (st : Table × Nat) (m : Node),
    lookupTable st.1 id = some m →
    (m = n ∨ (hasFzkTurning n.tags = false ∧ m = { n with tags := n.tags ++ [fzkTag cat] })) →
    ∃ n', lookupTable ((refs.foldl (fun s nid => annotateStep s nid cat) st)).1 id = some n'
      ∧ (n' = n ∨ (hasFzkTurning n.tags = false ∧ n' = { n with tags := n.tags ++ [fzkTag cat] })) := by
  induction refs with
  | nil => intro st m hm hq; exact ⟨m, by simpa using hm, hq⟩
  | cons r rest ih =>
    intro st m hm hq
    by_cases hne : r = id
    · subst hne
      by_cases hf : hasFzkTurning m.tags = true
      · have hst : annotateStep st r cat = st := by
          unfold annotateStep; simp [hm, hf]
        simp only [List.foldl_cons, hst]
        exact ih st m hm hq
      · simp only [Bool.not_eq_true] at hf
        have hlook : lookupTable (annotateStep st r cat).1 r
            = some { m with tags := m.tags ++ [fzkTag cat] } := by
          unfold annotateStep
          simp only [hm, hf, Bool.false_eq_true, if_false]
          exact lookupTable_insertTable_self _ _ _
        rcases hq with rfl | ⟨hn0, rfl⟩
        · exact ih (annotateStep st r cat) _ hlook (Or.inr ⟨hf, rfl⟩)
        · exfalso
          have := hasFzkTurning_append_fzk n.tags cat
          simp at hf
          simp [this] at hf
    · apply ih (annotateStep st r cat) m _ hq
      rw [annotateStep_lookup_ne st r id cat hne]
      exact hm

/-- Claim C10: within a single annotate call, a path referencing the same
turning-feature identifier more than once appends at most one
`fzk_turning` tag to that point and counts it at most once: an immediate
duplicate reference is a no-op, and across the whole call the tracked
entry either stays unchanged or gains exactly one `fzk_turning` tag. -/
theorem claim_C10 (tbl : Table) (id : Int) (n : Node) (refs : List Int) (cat : String)
    (h : lookupTable tbl id = some n) :
    addHighwayTypeToTurningCircleLoop (id :: id :: refs) tbl cat
      = addHighwayTypeToTurningCircleLoop (id :: refs) tbl cat
    ∧ ∃ n', lookupTable (addHighwayTypeToTurningCircleLoop (id :: id :: refs) tbl cat).1 id = some n'
        ∧ (n' = n ∨ (hasFzkTurning n.tags = false ∧ n' = { n with tags := n.tags ++ [fzkTag cat] })) := by
  constructor
  · unfold addHighwayTypeToTurningCircleLoop
    simp only [List.foldl_cons]
    rw [annotateStep_of_done (annotateStep (tbl, 0) id cat) id cat
      (annotateStep_done_self (tbl, 0) id cat)]
  · unfold addHighwayTypeToTurningCircleLoop
    exact annotateFold_entry_evolution (id :: id :: refs) cat id n (tbl, 0) n h (Or.inl rfl)

theorem claim_C10_witness :
    addHighwayTypeToTurningCircleLoop [77, 77] sampleTable "service"
      = addHighwayTypeToTurningCircleLoop [77] sampleTable "service"
    ∧ ∃ n', lookupTable (addHighwayTypeToTurningCircleLoop [77, 77] sampleTable "service").1 77
        = some n'
        ∧ (n' = sampleTurning77 ∨ (hasFzkTurning sampleTurning77.tags = false
            ∧ n' = { sampleTurning77 with
                      tags := sampleTurning77.tags ++ [fzkTag "service"] })) :=
  claim_C10 sampleTable 77 sampleTurning77 [] "service" (by decide)

theorem countFzk_insertTable (tbl : Table) (id : Int) (n n' : Node)
    (h : lookupTable tbl id = some n) :
    countFzk (insertTable tbl id n') + (if hasFzkTurning n.tags then 1 else 0)
      = countFzk tbl + (if hasFzkTurning n'.tags then 1 else 0) := by
  induction tbl with
  | nil => simp [lookupTable] at h
  | cons p rest ih =>
    obtain ⟨k, m⟩ := p
    by_cases hk : k = id
    · subst hk
      have h' : m = n := by simpa [lookupTable] using h
      subst h'
      have hins : insertTable ((k, m) :: rest) k n' = (k, n') :: rest := by
        simp [insertTable]
      rw [hins]
      simp only [countFzk]
      omega
    · simp only [lookupTable, hk, if_false] at h
      simp only [insertTable, hk, if_false, countFzk]
      have := ih h
      omega

theorem annotateStep_count (st : Table × Nat) (nid : Int) (cat : String) :
    countFzk (annotateStep st nid cat).1 + st.2
      = countFzk st.1 + (annotateStep st nid cat).2 := by
  unfold annotateStep
  cases hl : lookupTable st.1 nid with
  | none => simp
  | some m =>
    by_cases hf : hasFzkTurning m.tags = true
    · simp [hf]
    · simp only [Bool.not_eq_true] at hf
      simp only [hf, Bool.false_eq_true, if_false]
      have hcnt := countFzk_insertTable st.1 nid m
        { m with tags := m.tags ++ [fzkTag cat] } hl
      rw [hf] at hcnt
      rw [hasFzkTurning_append_fzk m.tags cat] at hcnt
      simp at hcnt
      omega

theorem annotateFold_count (refs : List Int) (cat : String) :
    ∀ st : Table × Nat,
    countFzk (refs.foldl (fun s nid => annotateStep s nid cat) st).1 + st.2
      = countFzk st.1 + (refs.foldl (fun s nid => annotateStep s nid cat) st).2 := by
  induction refs with
  | nil => intro st; simp
  | cons r rest ih =>
    intro st
    simp only [List.foldl_cons]
    have h1 := annotateStep_count st r cat
    have h2 := ih (annotateStep st r cat)
    omega

/-- Claim C8: the driver submits a path to the annotation pass exactly
when the path's own `highway` value is one of {residential,
living_street, unclassified, service, track}; a path with any other (or
no) `highway` value leaves the state untouched; and the annotate call
returns exactly the number of points newly annotated (the increase in the
number of table entries carrying an `fzk_turning` tag). -/
theorem claim_C8 (st : RunState) (wid : Int) (tags tags2 : List Tag) (refs : List Int)
    (tbl : Table) (cat v2 : String)
    (hnq : ∀ v, tagMapGet tags "highway" = some v → qualifyingHighway v = false)
    (hq2 : tagMapGet tags2 "highway" = some v2) (hqv : qualifyingHighway v2 = true) :
    processEntity st (.way wid tags refs) = st
    ∧ processEntity st (.way wid tags2 refs)
        = { st with
            turningCircleLoop := (addHighwayTypeToTurningCircleLoop refs st.turningCircleLoop v2).1,
            turningCircleLoopModified := st.turningCircleLoopModified
              + (addHighwayTypeToTurningCircleLoop refs st.turningCircleLoop v2).2 }
    ∧ (addHighwayTypeToTurningCircleLoop refs tbl cat).2 + countFzk tbl
        = countFzk (addHighwayTypeToTurningCircleLoop refs tbl cat).1
    ∧ (∀ v, qualifyingHighway v = true ↔
        (v = "residential" ∨ v = "living_street" ∨ v = "unclassified"
          ∨ v = "service" ∨ v = "track")) := by
  refine ⟨?_, ?_, ?_, ?_⟩
  · by_cases ht : tags = []
    · simp [processEntity, ht]
    · cases hm : tagMapGet tags "highway" with
      | none => simp [processEntity, ht, hm]
      | some v => simp [processEntity, ht, hm, hnq v hm]
  · have ht2 : tags2 ≠ [] := by
      intro h; rw [h] at hq2; simp [tagMapGet] at hq2
    simp [processEntity, ht2, hq2, hqv]
  · have h : countFzk (refs.foldl (fun s nid => annotateStep s nid cat) (tbl, 0)).1 + 0
        = countFzk tbl + (refs.foldl (fun s nid => annotateStep s nid cat) (tbl, 0)).2 :=
      annotateFold_count refs cat (tbl, 0)
    unfold addHighwayTypeToTurningCircleLoop
    omega
  · intro v
    unfold qualifyingHighway
    split_ifs with h1 h2 h3 h4 h5 <;> simp_all

theorem claim_C8_witness :
    processEntity (initialState 5) (.way 1 [⟨"highway", "footway"⟩] [77]) = initialState 5
    ∧ processEntity (initialState 5) (.way 1 [⟨"highway", "service"⟩] [77])
        = { initialState 5 with
            turningCircleLoop :=
              (addHighwayTypeToTurningCircleLoop [77] (initialState 5).turningCircleLoop "service").1,
            turningCircleLoopModified := (initialState 5).turningCircleLoopModified
              + (addHighwayTypeToTurningCircleLoop [77] (initialState 5).turningCircleLoop "service").2 }
    ∧ (addHighwayTypeToTurningCircleLoop [77] sampleTable "service").2 + countFzk sampleTable
        = countFzk (addHighwayTypeToTurningCircleLoop [77] sampleTable "service").1
    ∧ (∀ v, qualifyingHighway v = true ↔
        (v = "residential" ∨ v = "living_street" ∨ v = "unclassified"
          ∨ v = "service" ∨ v = "track")) :=
  claim_C8 (initialState 5) 1 [⟨"highway", "footway"⟩] [⟨"highway", "service"⟩] [77]
    sampleTable "service" "service"
    (by intro v hv; simp [tagMapGet] at hv; subst hv; decide)
    (by decide) (by decide)

/-- Claim C5: at drain time every table entry without an `fzk_turning`
tag gets `fzk_turning = not_set` appended before emission, every entry is
yielded exactly once (the drained list has one element per entry), and
every drained record carries an `fzk_turning` tag; in particular an entry
never touched by a qualifying path leaves with `fzk_turning = not_set`. -/
theorem claim_C5 (tbl : Table) (p : Int × Node) (hp : p ∈ tbl) :
    (drainFinalize tbl).length = tbl.length
    ∧ (∀ n ∈ drainFinalize tbl, hasFzkTurning n.tags = true)
    ∧ (hasFzkTurning p.2.tags = true → p.2 ∈ drainFinalize tbl)
    ∧ (hasFzkTurning p.2.tags = false →
        { p.2 with tags := p.2.tags ++ [fzkTag "not_set"] } ∈ drainFinalize tbl) := by
  refine ⟨?_, ?_, ?_, ?_⟩
  · simp [drainFinalize]
  · intro n hn
    rcases List.mem_map.mp hn with ⟨q, _, hq⟩
    by_cases hf : hasFzkTurning q.2.tags = true
    · rw [← hq]; simp [hf]
    · simp only [Bool.not_eq_true] at hf
      rw [← hq]
      simp only [hf, Bool.false_eq_true, if_false]
      exact hasFzkTurning_append_fzk _ _
  · intro hf
    have := List.mem_map_of_mem (fun q =>
      if hasFzkTurning q.2.tags then q.2
      else { q.2 with tags := q.2.tags ++ [fzkTag "not_set"] }) hp
    simpa [drainFinalize, hf] using this
  · intro hf
    have := List.mem_map_of_mem (fun q =>
      if hasFzkTurning q.2.tags then q.2
      else { q.2 with tags := q.2.tags ++ [fzkTag "not_set"] }) hp
    simpa [drainFinalize, hf] using this

theorem claim_C5_witness :
    (drainFinalize sampleTable).length = sampleTable.length
    ∧ (∀ n ∈ drainFinalize sampleTable, hasFzkTurning n.tags = true)
    ∧ (hasFzkTurning (77, sampleTurning77).2.tags = true
        → (77, sampleTurning77).2 ∈ drainFinalize sampleTable)
    ∧ (hasFzkTurning (77, sampleTurning77).2.tags = false
        → { (77, sampleTurning77).2 with
              tags := (77, sampleTurning77).2.tags ++ [fzkTag "not_set"] }
            ∈ drainFinalize sampleTable) :=
  claim_C5 sampleTable (77, sampleTurning77) (by decide)

theorem processNodeNetwork_table (st : RunState) (n : Node) :
    (processNodeNetwork st n).turningCircleLoop = st.turningCircleLoop := by
  unfold processNodeNetwork
  cases tagMapGet n.tags "network:type" with
  | none => rfl
  | some v =>
    by_cases hv : v = "node_network"
    · simp [hv]
    · simp [hv]

/-- Claim C7: every point whose `highway` tag equals `turning_circle` or
`turning_loop` is registered in the correlation table under its own
identifier with the entry holding exactly that point record, and a second
registration under the same identifier silently overwrites the earlier
entry. -/
theorem claim_C7 (st : RunState) (n : Node) (v : String) (tbl : Table)
    (m1 m2 : Node) (id : Int)
    (hv : tagMapGet n.tags "highway" = some v)
    (hturn : v = "turning_circle" ∨ v = "turning_loop") :
    lookupTable (processEntity st (.node n)).turningCircleLoop n.id = some n
    ∧ lookupTable (insertTable (insertTable tbl id m1) id m2) id = some m2 := by
  constructor
  · have hne : n.tags ≠ [] := by
      intro h; rw [h] at hv; simp [tagMapGet] at hv
    simp only [processEntity, hne, if_false]
    unfold processNodeTurning
    rw [hv]
    simp only [hturn, if_true, if_pos hturn]
    rw [processNodeNetwork_table]
    exact lookupTable_insertTable_self _ _ _
  · exact lookupTable_insertTable_self _ _ _

theorem claim_C7_witness :
    lookupTable (processEntity (initialState 1000) (.node sampleTurning77)).turningCircleLoop
        sampleTurning77.id = some sampleTurning77
    ∧ lookupTable (insertTable (insertTable [] 99 sampleTurning77) 99 sampleTurning88) 99
        = some sampleTurning88 :=
  claim_C7 (initialState 1000) sampleTurning77 "turning_circle" [] sampleTurning77
    sampleTurning88 99 (by decide) (Or.inl rfl)

theorem mem_familyNodes {src : Node} {keys : List String} {label : String} {d : Node}
    (hd : d ∈ familyNodes src keys label) : ∃ v, d = mkNetworkNode src label v := by
  unfold familyNodes at hd
  cases h : chainRef src.tags keys with
  | none => rw [h] at hd; simp at hd
  | some v =>
    rw [h] at hd
    simp at hd
    exact ⟨v, hd⟩

/-- Claim C9: synthesis never alters the source point record — every
derived node is a copy of the source carrying exactly the two fresh tags,
and a point that is both network-tagged and turning-feature-tagged is
registered in the correlation table with its original record (original
identifier and tag list) intact after synthesis ran on it. -/
theorem claim_C9 (st : RunState) (n : Node)
    (_hnet : tagMapGet n.tags "network:type" = some "node_network")
    (hhw : tagMapGet n.tags "highway" = some "turning_circle") :
    (∀ d ∈ createNewNodeNetworkObject n, ∃ label v, d = mkNetworkNode n label v)
    ∧ lookupTable (processEntity st (.node n)).turningCircleLoop n.id = some n
    ∧ (∀ label v, (mkNetworkNode n label v).lat = n.lat
        ∧ (mkNetworkNode n label v).lon = n.lon
        ∧ (mkNetworkNode n label v).timestamp = n.timestamp
        ∧ (mkNetworkNode n label v).tags = [⟨"node_network", label⟩, ⟨"name", v⟩]) := by
  refine ⟨?_, ?_, ?_⟩
  · intro d hd
    unfold createNewNodeNetworkObject at hd
    simp only [List.mem_append] at hd
    rcases hd with ((((hd | hd) | hd) | hd) | hd) | hd <;>
      obtain ⟨v, rfl⟩ := mem_familyNodes hd <;>
      exact ⟨_, v, rfl⟩
  · have hne : n.tags ≠ [] := by
      intro h; rw [h] at hhw; simp [tagMapGet] at hhw
    simp only [processEntity, hne, if_false]
    unfold processNodeTurning
    rw [hhw]
    simp only [if_pos (Or.inl rfl)]
    rw [processNodeNetwork_table]
    exact lookupTable_insertTable_self _ _ _
  · intro label v
    exact ⟨rfl, rfl, rfl, rfl⟩

theorem claim_C9_witness :
    (∀ d ∈ createNewNodeNetworkObject sampleNodeBoth,
        ∃ label v, d = mkNetworkNode sampleNodeBoth label v)
    ∧ lookupTable (processEntity (initialState 1000)
        (.node sampleNodeBoth)).turningCircleLoop sampleNodeBoth.id = some sampleNodeBoth
    ∧ (∀ label v, (mkNetworkNode sampleNodeBoth label v).lat = sampleNodeBoth.lat
        ∧ (mkNetworkNode sampleNodeBoth label v).lon = sampleNodeBoth.lon
        ∧ (mkNetworkNode sampleNodeBoth label v).timestamp = sampleNodeBoth.timestamp
        ∧ (mkNetworkNode sampleNodeBoth label v).tags
            = [⟨"node_network", label⟩, ⟨"name", v⟩]) :=
  claim_C9 (initialState 1000) sampleNodeBoth (by decide) (by decide)

/-- Claim C1: a point tagged `network:type = node_network` carrying
exactly one of the category reference keys yields exactly one derived
point whose tag set is exactly `node_network = <category label>` and
`name = <reference value>`, with coordinates and all passthrough metadata
identical to the source point (the source's tags are discarded). -/
theorem claim_C1 (src : Node) (k label v : String)
    (_hnet : tagMapGet src.tags "network:type" = some "node_network")
    (hk : (k, label) ∈ categoryRefKeys)
    (hv : tagMapGet src.tags k = some v)
    (hothers : ∀ p ∈ categoryRefKeys, p.1 ≠ k → tagMapGet src.tags p.1 = none) :
    createNewNodeNetworkObject src = [mkNetworkNode src label v]
    ∧ (mkNetworkNode src label v).lat = src.lat
    ∧ (mkNetworkNode src label v).lon = src.lon
    ∧ (mkNetworkNode src label v).user = src.user
    ∧ (mkNetworkNode src label v).uid = src.uid
    ∧ (mkNetworkNode src label v).visible = src.visible
    ∧ (mkNetworkNode src label v).version = src.version
    ∧ (mkNetworkNode src label v).changeset = src.changeset
    ∧ (mkNetworkNode src label v).timestamp = src.timestamp
    ∧ (mkNetworkNode src label v).tags = [⟨"node_network", label⟩, ⟨"name", v⟩] := by
  have h01 := hothers ("icn_ref", "node_bicycle") (by simp [categoryRefKeys])
  have h02 := hothers ("ncn_ref", "node_bicycle") (by simp [categoryRefKeys])
  have h03 := hothers ("rcn_ref", "node_bicycle") (by simp [categoryRefKeys])
  have h04 := hothers ("lcn_ref", "node_bicycle") (by simp [categoryRefKeys])
  have h05 := hothers ("iwn_ref", "node_hiking") (by simp [categoryRefKeys])
  have h06 := hothers ("nwn_ref", "node_hiking") (by simp [categoryRefKeys])
  have h07 := hothers ("rwn_ref", "node_hiking") (by simp [categoryRefKeys])
  have h08 := hothers ("lwn_ref", "node_hiking") (by simp [categoryRefKeys])
  have h09 := hothers ("rin_ref", "node_inline_skates") (by simp [categoryRefKeys])
  have h10 := hothers ("rhn_ref", "node_horse") (by simp [categoryRefKeys])
  have h11 := hothers ("rpn_ref", "node_canoe") (by simp [categoryRefKeys])
  have h12 := hothers ("rmn_ref", "node_motorboat") (by simp [categoryRefKeys])
  refine ⟨?_, rfl, rfl, rfl, rfl, rfl, rfl, rfl, rfl, rfl⟩
  simp only [categoryRefKeys, List.mem_cons, List.not_mem_nil, or_false,
    Prod.mk.injEq] at hk
  obtain hcat | hcat | hcat | hcat | hcat | hcat | hcat | hcat | hcat | hcat |
      hcat | hcat := hk <;>
    obtain ⟨rfl, rfl⟩ := hcat <;>
    simp [createNewNodeNetworkObject, familyNodes, chainRef, bicycleRefKeys,
      hikingRefKeys, hv, h01, h02, h03, h04, h05, h06, h07, h08, h09, h10, h11, h12]

theorem claim_C1_witness :
    createNewNodeNetworkObject sampleNodeRcn = [mkNetworkNode sampleNodeRcn "node_bicycle" "53"]
    ∧ (mkNetworkNode sampleNodeRcn "node_bicycle" "53").lat = sampleNodeRcn.lat
    ∧ (mkNetworkNode sampleNodeRcn "node_bicycle" "53").lon = sampleNodeRcn.lon
    ∧ (mkNetworkNode sampleNodeRcn "node_bicycle" "53").user = sampleNodeRcn.user
    ∧ (mkNetworkNode sampleNodeRcn "node_bicycle" "53").uid = sampleNodeRcn.uid
    ∧ (mkNetworkNode sampleNodeRcn "node_bicycle" "53").visible = sampleNodeRcn.visible
    ∧ (mkNetworkNode sampleNodeRcn "node_bicycle" "53").version = sampleNodeRcn.version
    ∧ (mkNetworkNode sampleNodeRcn "node_bicycle" "53").changeset = sampleNodeRcn.changeset
    ∧ (mkNetworkNode sampleNodeRcn "node_bicycle" "53").timestamp = sampleNodeRcn.timestamp
    ∧ (mkNetworkNode sampleNodeRcn "node_bicycle" "53").tags
        = [⟨"node_network", "node_bicycle"⟩, ⟨"name", "53"⟩] :=
  claim_C1 sampleNodeRcn "rcn_ref" "node_bicycle" "53" (by decide) (by decide)
    (by decide) (by decide)

theorem hasTagPair_mkNetworkNode (src : Node) (label v L : String) :
    hasTagPair (mkNetworkNode src label v).tags "node_network" L
      = if label = L then true else false := by
  by_cases h : label = L <;> simp [mkNetworkNode, hasTagPair, h]

theorem filter_familyNodes_eq (src : Node) (keys : List String) (L : String) :
    (familyNodes src keys L).filter (fun n => hasTagPair n.tags "node_network" L)
      = familyNodes src keys L := by
  unfold familyNodes
  cases chainRef src.tags keys with
  | none => simp
  | some v => simp [hasTagPair_mkNetworkNode]

theorem filter_familyNodes_ne (src : Node) (keys : List String) (label L : String)
    (h : label ≠ L) :
    (familyNodes src keys label).filter (fun n => hasTagPair n.tags "node_network" L)
      = [] := by
  unfold familyNodes
  cases chainRef src.tags keys with
  | none => simp
  | some v => simp [hasTagPair_mkNetworkNode, h]

theorem familyNodes_length_le_one (src : Node) (keys : List String) (label : String) :
    (familyNodes src keys label).length ≤ 1 := by
  unfold familyNodes
  cases chainRef src.tags keys <;> simp

/-- Claim C2: for a `node_network` point, each chained family emits at
most one derived node across the whole synthesis, chosen by the full
priority chain icn_ref, then ncn_ref, then rcn_ref, then lcn_ref: the
first key present in that order is the one used (so with both `icn_ref`
and `rcn_ref` present only the `icn_ref` value appears and no duplicate
node is emitted), later keys never override an earlier one, and no
bicycle node at all is emitted when none of the four keys is present; the
hiking family behaves identically over iwn_ref, nwn_ref, rwn_ref,
lwn_ref. -/
theorem claim_C2 (src : Node) :
    ((createNewNodeNetworkObject src).filter
        (fun n => hasTagPair n.tags "node_network" "node_bicycle")).length ≤ 1
    ∧ ((createNewNodeNetworkObject src).filter
        (fun n => hasTagPair n.tags "node_network" "node_hiking")).length ≤ 1
    ∧ (∀ v, tagMapGet src.tags "icn_ref" = some v →
        (createNewNodeNetworkObject src).filter
            (fun n => hasTagPair n.tags "node_network" "node_bicycle")
          = [mkNetworkNode src "node_bicycle" v])
    ∧ (∀ v, tagMapGet src.tags "icn_ref" = none →
        tagMapGet src.tags "ncn_ref" = some v →
        (createNewNodeNetworkObject src).filter
            (fun n => hasTagPair n.tags "node_network" "node_bicycle")
          = [mkNetworkNode src "node_bicycle" v])
    ∧ (∀ v, tagMapGet src.tags "icn_ref" = none →
        tagMapGet src.tags "ncn_ref" = none →
        tagMapGet src.tags "rcn_ref" = some v →
        (createNewNodeNetworkObject src).filter
            (fun n => hasTagPair n.tags "node_network" "node_bicycle")
          = [mkNetworkNode src "node_bicycle" v])
    ∧ (∀ v, tagMapGet src.tags "icn_ref" = none →
        tagMapGet src.tags "ncn_ref" = none →
        tagMapGet src.tags "rcn_ref" = none →
        tagMapGet src.tags "lcn_ref" = some v →
        (createNewNodeNetworkObject src).filter
            (fun n => hasTagPair n.tags "node_network" "node_bicycle")
          = [mkNetworkNode src "node_bicycle" v])
    ∧ (tagMapGet src.tags "icn_ref" = none →
        tagMapGet src.tags "ncn_ref" = none →
        tagMapGet src.tags "rcn_ref" = none →
        tagMapGet src.tags "lcn_ref" = none →
        (createNewNodeNetworkObject src).filter
            (fun n => hasTagPair n.tags "node_network" "node_bicycle")
          = [])
    ∧ (∀ w, tagMapGet src.tags "iwn_ref" = some w →
        (createNewNodeNetworkObject src).filter
            (fun n => hasTagPair n.tags "node_network" "node_hiking")
          = [mkNetworkNode src "node_hiking" w])
    ∧ (∀ w, tagMapGet src.tags "iwn_ref" = none →
        tagMapGet src.tags "nwn_ref" = some w →
        (createNewNodeNetworkObject src).filter
            (fun n => hasTagPair n.tags "node_network" "node_hiking")
          = [mkNetworkNode src "node_hiking" w])
    ∧ (∀ w, tagMapGet src.tags "iwn_ref" = none →
        tagMapGet src.tags "nwn_ref" = none →
        tagMapGet src.tags "rwn_ref" = some w →
        (createNewNodeNetworkObject src).filter
            (fun n => hasTagPair n.tags "node_network" "node_hiking")
          = [mkNetworkNode src "node_hiking" w])
    ∧ (∀ w, tagMapGet src.tags "iwn_ref" = none →
        tagMapGet src.tags "nwn_ref" = none →
        tagMapGet src.tags "rwn_ref" = none →
        tagMapGet src.tags "lwn_ref" = some w →
        (createNewNodeNetworkObject src).filter
            (fun n => hasTagPair n.tags "node_network" "node_hiking")
          = [mkNetworkNode src "node_hiking" w])
    ∧ (tagMapGet src.tags "iwn_ref" = none →
        tagMapGet src.tags "nwn_ref" = none →
        tagMapGet src.tags "rwn_ref" = none →
        tagMapGet src.tags "lwn_ref" = none →
        (createNewNodeNetworkObject src).filter
            (fun n => hasTagPair n.tags "node_network" "node_hiking")
          = []) := by
  have hb : (createNewNodeNetworkObject src).filter
      (fun n => hasTagPair n.tags "node_network" "node_bicycle")
      = familyNodes src bicycleRefKeys "node_bicycle" := by
    unfold createNewNodeNetworkObject
    simp only [List.filter_append]
    rw [filter_familyNodes_eq src bicycleRefKeys "node_bicycle",
      filter_familyNodes_ne src hikingRefKeys "node_hiking" "node_bicycle" (by decide),
      filter_familyNodes_ne src ["rin_ref"] "node_inline_skates" "node_bicycle" (by decide),
      filter_familyNodes_ne src ["rhn_ref"] "node_horse" "node_bicycle" (by decide),
      filter_familyNodes_ne src ["rpn_ref"] "node_canoe" "node_bicycle" (by decide),
      filter_familyNodes_ne src ["rmn_ref"] "node_motorboat" "node_bicycle" (by decide)]
    simp
  have hh : (createNewNodeNetworkObject src).filter
      (fun n => hasTagPair n.tags "node_network" "node_hiking")
      = familyNodes src hikingRefKeys "node_hiking" := by
    unfold createNewNodeNetworkObject
    simp only [List.filter_append]
    rw [filter_familyNodes_ne src bicycleRefKeys "node_bicycle" "node_hiking" (by decide),
      filter_familyNodes_eq src hikingRefKeys "node_hiking",
      filter_familyNodes_ne src ["rin_ref"] "node_inline_skates" "node_hiking" (by decide),
      filter_familyNodes_ne src ["rhn_ref"] "node_horse" "node_hiking" (by decide),
      filter_familyNodes_ne src ["rpn_ref"] "node_canoe" "node_hiking" (by decide),
      filter_familyNodes_ne src ["rmn_ref"] "node_motorboat" "node_hiking" (by decide)]
    simp
  refine ⟨?_, ?_, ?_, ?_, ?_, ?_, ?_, ?_, ?_, ?_, ?_, ?_⟩
  · rw [hb]; exact familyNodes_length_le_one src bicycleRefKeys "node_bicycle"
  · rw [hh]; exact familyNodes_length_le_one src hikingRefKeys "node_hiking"
  · intro v h1
    rw [hb]
    simp [familyNodes, bicycleRefKeys, chainRef, h1]
  · intro v h1 h2
    rw [hb]
    simp [familyNodes, bicycleRefKeys, chainRef, h1, h2]
  · intro v h1 h2 h3
    rw [hb]
    simp [familyNodes, bicycleRefKeys, chainRef, h1, h2, h3]
  · intro v h1 h2 h3 h4
    rw [hb]
    simp [familyNodes, bicycleRefKeys, chainRef, h1, h2, h3, h4]
  · intro h1 h2 h3 h4
    rw [hb]
    simp [familyNodes, bicycleRefKeys, chainRef, h1, h2, h3, h4]
  · intro w h1
    rw [hh]
    simp [familyNodes, hikingRefKeys, chainRef, h1]
  · intro w h1 h2
    rw [hh]
    simp [familyNodes, hikingRefKeys, chainRef, h1, h2]
  · intro w h1 h2 h3
    rw [hh]
    simp [familyNodes, hikingRefKeys, chainRef, h1, h2, h3]
  · intro w h1 h2 h3 h4
    rw [hh]
    simp [familyNodes, hikingRefKeys, chainRef, h1, h2, h3, h4]
  · intro h1 h2 h3 h4
    rw [hh]
    simp [familyNodes, hikingRefKeys, chainRef, h1, h2, h3, h4]

theorem claim_C2_witness :
    (createNewNodeNetworkObject sampleNodeIcnRcn).filter
        (fun n => hasTagPair n.tags "node_network" "node_bicycle")
      = [mkNetworkNode sampleNodeIcnRcn "node_bicycle" "5"]
    ∧ (createNewNodeNetworkObject sampleNodeNcnRcn).filter
        (fun n => hasTagPair n.tags "node_network" "node_bicycle")
      = [mkNetworkNode sampleNodeNcnRcn "node_bicycle" "21"]
    ∧ (createNewNodeNetworkObject sampleNodeNcnRcn).filter
        (fun n => hasTagPair n.tags "node_network" "node_hiking")
      = [] :=
  ⟨(claim_C2 sampleNodeIcnRcn).2.2.1 "5" (by decide),
   (claim_C2 sampleNodeNcnRcn).2.2.2.1 "21" (by decide) (by decide),
   (claim_C2 sampleNodeNcnRcn).2.2.2.2.2.2.2.2.2.2.2 (by decide) (by decide)
     (by decide) (by decide)⟩

theorem foldWrite_len (ns : List Node) : ∀ st : SinkState,
    (ns.foldl writeNewNodeObject st).written.length = st.written.length + ns.length := by
  induction ns with
  | nil => intro st; simp
  | cons n rest ih =>
    intro st
    simp only [List.foldl_cons]
    rw [ih]
    simp [writeNewNodeObject]
    omega

theorem foldWrite_inv (ns : List Node) : ∀ (st : SinkState) (s : Int),
    0 ≤ s →
    st.newNodeID = s + (st.written.length : Int) →
    st.written.map (fun n => n.id) = idsFrom s st.written.length →
    s + (st.written.length : Int) + (ns.length : Int) < 2 ^ 63 →
    (ns.foldl writeNewNodeObject st).newNodeID
        = s + (((ns.foldl writeNewNodeObject st).written.length : Nat) : Int)
    ∧ (ns.foldl writeNewNodeObject st).written.map (fun n => n.id)
        = idsFrom s (ns.foldl writeNewNodeObject st).written.length := by
  induction ns with
  | nil => intro st s _ h1 h2 _; exact ⟨h1, h2⟩
  | cons n rest ih =>
    intro st s h0 h1 h2 h3
    simp only [List.foldl_cons]
    simp only [List.length_cons] at h3
    have hlen : (writeNewNodeObject st n).written.length = st.written.length + 1 := by
      simp [writeNewNodeObject]
    have hcounter : (writeNewNodeObject st n).newNodeID
        = s + (((writeNewNodeObject st n).written.length : Nat) : Int) := by
      show wrap64 (st.newNodeID + 1) = _
      rw [h1, hlen, wrap64_eq_self (by push_cast; omega) (by push_cast at h3 ⊢; omega)]
      push_cast
      ring
    have hids : (writeNewNodeObject st n).written.map (fun x => x.id)
        = idsFrom s (writeNewNodeObject st n).written.length := by
      show (st.written ++ [{ n with id := st.newNodeID }]).map (fun x : Node => x.id)
          = idsFrom s (st.written ++ [{ n with id := st.newNodeID }]).length
      rw [List.map_append, h2]
      simp only [List.map_cons, List.map_nil, List.length_append,
        List.length_cons, List.length_nil]
      rw [h1]
      show idsFrom s st.written.length ++ [s + (st.written.length : Int)]
          = idsFrom s (st.written.length + 1)
      rfl
    exact ih (writeNewNodeObject st n) s h0 hcounter hids
      (by rw [hlen]; push_cast at h3 ⊢; omega)

theorem processEntity_sink_cases (st : RunState) (e : Entity) :
    (processEntity st e).sink = st.sink
    ∨ ∃ n, (processEntity st e).sink
        = (createNewNodeNetworkObject n).foldl writeNewNodeObject st.sink := by
  cases e with
  | node n =>
    by_cases ht : n.tags = []
    · left; simp [processEntity, ht]
    · have hturn : ∀ st', (processNodeTurning st' n).sink = st'.sink := by
        intro st'
        unfold processNodeTurning
        cases tagMapGet n.tags "highway" with
        | none => rfl
        | some v =>
          by_cases h : v = "turning_circle" ∨ v = "turning_loop" <;> simp [h]
      simp only [processEntity, ht, if_false]
      rw [hturn]
      unfold processNodeNetwork
      cases tagMapGet n.tags "network:type" with
      | none => left; rfl
      | some v =>
        by_cases hv : v = "node_network"
        · right; exact ⟨n, by simp [hv]⟩
        · left; simp [hv]
  | way wid tags refs =>
    left
    by_cases ht : tags = []
    · simp [processEntity, ht]
    · simp only [processEntity, ht, if_false]
      cases tagMapGet tags "highway" with
      | none => rfl
      | some v =>
        by_cases hq : qualifyingHighway v = true <;> simp [hq]
  | relation rid => left; rfl

theorem processEntity_sink_len (st : RunState) (e : Entity) :
    st.sink.written.length ≤ (processEntity st e).sink.written.length := by
  rcases processEntity_sink_cases st e with h | ⟨n, h⟩
  · rw [h]
  · rw [h, foldWrite_len]; omega

theorem processEntities_sink_len (es : List Entity) : ∀ st : RunState,
    st.sink.written.length ≤ (processEntities st es).sink.written.length := by
  induction es with
  | nil => intro st; simp [processEntities]
  | cons e rest ih =>
    intro st
    have h1 := processEntity_sink_len st e
    have h2 := ih (processEntity st e)
    simp only [processEntities, List.foldl_cons] at h2 ⊢
    omega

theorem processEntities_inv (es : List Entity) : ∀ (st : RunState) (s : Int),
    0 ≤ s →
    st.sink.newNodeID = s + (st.sink.written.length : Int) →
    st.sink.written.map (fun n => n.id) = idsFrom s st.sink.written.length →
    s + ((processEntities st es).sink.written.length : Int) < 2 ^ 63 →
    (processEntities st es).sink.newNodeID
        = s + ((processEntities st es).sink.written.length : Int)
    ∧ (processEntities st es).sink.written.map (fun n => n.id)
        = idsFrom s (processEntities st es).sink.written.length := by
  induction es with
  | nil => intro st s _ h1 h2 _; exact ⟨h1, h2⟩
  | cons e rest ih =>
    intro st s h0 h1 h2 h3
    have hfold : processEntities st (e :: rest) = processEntities (processEntity st e) rest :=
      rfl
    rw [hfold] at h3 ⊢
    have hmono : (processEntity st e).sink.written.length
        ≤ (processEntities (processEntity st e) rest).sink.written.length :=
      processEntities_sink_len rest _
    rcases processEntity_sink_cases st e with hcase | ⟨n, hcase⟩
    · exact ih (processEntity st e) s h0 (by rw [hcase]; exact h1)
        (by rw [hcase]; exact h2) h3
    · have hlen := foldWrite_len (createNewNodeNetworkObject n) st.sink
      have hbound : s + (st.sink.written.length : Int)
          + ((createNewNodeNetworkObject n).length : Int) < 2 ^ 63 := by
        rw [hcase, hlen] at hmono
        push_cast
        omega
      have hinv := foldWrite_inv (createNewNodeNetworkObject n) st.sink s h0 h1 h2 hbound
      exact ih (processEntity st e) s h0 (by rw [hcase]; exact hinv.1)
        (by rw [hcase]; exact hinv.2) h3

/-- Claim C3: over any run whose derived-node count stays inside the
signed 64-bit range, the identifiers assigned to synthesized points are
exactly the consecutive integers starting at the configured start value
(no gaps, no repeats), and the process-wide counter has advanced by
exactly one per synthesized node. -/
theorem claim_C3 (startNode : Int) (es : List Entity)
    (h1 : 1 ≤ startNode)
    (h2 : startNode + ((runProgram startNode es).sink.written.length : Int) < 2 ^ 63) :
    (runProgram startNode es).sink.written.map (fun n => n.id)
        = idsFrom startNode (runProgram startNode es).sink.written.length
    ∧ (runProgram startNode es).sink.newNodeID
        = startNode + ((runProgram startNode es).sink.written.length : Int) := by
  unfold runProgram at h2 ⊢
  have h := processEntities_inv es (initialState startNode) startNode (by omega)
    (by simp [initialState]) (by simp [initialState, idsFrom]) h2
  exact ⟨h.2, h.1⟩

theorem claim_C3_witness :
    (runProgram 1000 [.node sampleNodeRcn]).sink.written.map (fun n => n.id)
        = idsFrom 1000 (runProgram 1000 [.node sampleNodeRcn]).sink.written.length
    ∧ (runProgram 1000 [.node sampleNodeRcn]).sink.newNodeID
        = 1000 + ((runProgram 1000 [.node sampleNodeRcn]).sink.written.length : Int) :=
  claim_C3 1000 [.node sampleNodeRcn] (by decide) (by decide)

/-- Claim C6 counterexample: an invocation with both file paths supplied
and the start identifier -5 — which is not a positive non-zero integer —
does NOT trigger the usage help: the code only rejects a start identifier
equal to zero. -/
theorem claim_C6_counterexample :
    ¬ (0 < (-5 : Int)) ∧ argCheckTriggersUsage "osmdata.pbf" "osmpp.xml" (-5) = false := by
  decide

/-- Claim C6 (amended): the CLI validation triggers the usage help
exactly when the input path is empty, the output path is empty, or the
start identifier equals zero (the flag default, so a missing flag is
caught); negative start identifiers are accepted.  The usage path
terminates with the non-zero exit code 1 and the success path exits with
code 0. -/
theorem claim_C6 (i o : String) (s : Int) :
    (argCheckTriggersUsage i o s = true ↔ (i = "" ∨ o = "" ∨ s = 0))
    ∧ usageExitCode = 1 ∧ usageExitCode ≠ successExitCode ∧ successExitCode = 0 := by
  refine ⟨?_, rfl, by decide, rfl⟩
  unfold argCheckTriggersUsage
  split_ifs with h1 h2 h3 <;> simp_all
